import Mathlib

/-!
Verification of the `.superthink` static-analysis rule engine.

This file gives a shallow embedding, in Lean, of the rule modules of the
repository (`.superthink/rules/performance_rules.py`, `security_rules.py`,
`tax_rules.py`, `trading_rules.py`, and the relevant parts of
`.superthink/scanners/deep_scan.py` and `performance_profiler.py`), and
proves or refutes the behavioural claims made about them.

Conventions used throughout:
- a Python string is modelled as `List Char` (abbreviated `PStr`); Python
  substring tests (`needle in hay`) become `containsSub`;
- a Python source file is modelled by its raw text (a `PStr`) for the
  line-oriented rules, and by a small abstract-syntax type `Stmt` / `Exp`
  for the `ast.NodeVisitor` based rules;
- machine floats that the code only ever compares or sums are modelled as
  rationals (`Rat`);
- line numbers are 1-based `Nat`, as in the Python `ast` and `enumerate`.
-/

/-- Python string, modelled as a list of characters. -/
abbrev PStr := List Char

/-- Convert a Lean string literal to the `PStr` model. -/
def str (s : String) : PStr := s.data

/-- The single-quote character, written via its code point. -/
def sqCh : Char := Char.ofNat 39

/-- Python `str.lower()` (ASCII is all the rules use). -/
def lowerStr (l : PStr) : PStr := l.map Char.toLower

/-- Python substring test `needle in hay`. -/
def containsSub (needle : PStr) : PStr → Bool
  | [] => needle.isEmpty
  | c :: rest => needle.isPrefixOf (c :: rest) || containsSub needle rest

/-- Characters that Python `\s` and `str.strip()` treat as whitespace. -/
def isPySpace (c : Char) : Bool :=
  c = ' ' || c = '\t' || c = '\n' || c = '\x0d' || c = '\x0c' || c = '\x0b'

/-- Python `\w` word characters. -/
def isWordChar (c : Char) : Bool := c.isAlphanum || c = '_'

/-- Python `content.split('\n')`: splitting an empty string gives `[""]`. -/
def splitLines : PStr → List PStr
  | [] => [[]]
  | c :: rest =>
    if c = '\n' then [] :: splitLines rest
    else
      match splitLines rest with
      | [] => [[c]]
      | x :: xs => (c :: x) :: xs

/-- Python `'\n'.join(lines)`. -/
def joinNl (ls : List PStr) : PStr := List.intercalate [ '\n' ] ls

/-- Python slice `lines[a:b]` (with the clamping slices do). -/
def window (ls : List PStr) (a b : Nat) : List PStr := (ls.drop a).take (b - a)

/-- Python `line.strip().startswith('#')`: first non-space character is `#`. -/
def stripStartsHash (l : PStr) : Bool :=
  match l.dropWhile isPySpace with
  | c :: _ => c = '#'
  | [] => false

/-- Count occurrences of one character, Python `s.count('=')` for a
single-character needle. -/
def countCharEq (c : Char) (l : PStr) : Nat := l.countP (fun d => d = c)

/-!  Tiny matching primitives used to embed the concrete regular
expressions appearing in the rules.  Every regex in the rule files is
either a literal alternation or a simple chain of literals and character
classes, so each one is embedded as a specific function built from the
combinators below.  A matcher takes the text starting at a candidate
position and returns the rest of the text after the match, or `none`. -/

/-- Consume an exact literal. -/
def eatLit (needle : PStr) (l : PStr) : Option PStr :=
  if needle.isPrefixOf l then some (l.drop needle.length) else none

/-- Consume one-or-more characters of a class (greedy, `X+`). -/
def eatMany1 (p : Char → Bool) (l : PStr) : Option PStr :=
  match l with
  | c :: rest => if p c then some (rest.dropWhile p) else none
  | [] => none

/-- Consume zero-or-more characters of a class (greedy, `X*`). -/
def eatMany (p : Char → Bool) (l : PStr) : PStr := l.dropWhile p

/-- Consume at least `n` characters of a class (used for `\d{6,}`). -/
def eatCount (p : Char → Bool) : Nat → PStr → Option PStr
  | 0, l => some l
  | _ + 1, [] => none
  | n + 1, c :: rest => if p c then eatCount p n rest else none

/-- `re.search` driver: try the matcher at every start position. -/
def searchBy (f : PStr → Bool) : PStr → Bool
  | [] => f []
  | c :: rest => f (c :: rest) || searchBy f rest

/-- Count of `re.finditer` matches: scan left to right, on a match resume
after the matched span (advancing at least one character). -/
def finditerCount (m : PStr → Option PStr) : Nat → PStr → Nat
  | 0, _ => 0
  | fuel + 1, l =>
    match m l with
    | some rest =>
      1 + finditerCount m fuel (if rest.length < l.length then rest else l.drop 1)
    | none =>
      match l with
      | [] => 0
      | _ :: tl => finditerCount m fuel tl

/-!  The abstract syntax tree.  The rules visit Python `ast` trees; the
embedding keeps exactly the node kinds the visitors distinguish (function
definitions, async function definitions, `for`, `while`, expression
statements, names, attribute accesses, calls), each carrying its
`lineno`.  `generic_visit` visits the children of a node in field order,
which the visitor functions below reproduce. -/

inductive Exp where
  | name : PStr → Nat → Exp
  | attr : Exp → PStr → Nat → Exp
  | call : Exp → List Exp → Nat → Exp
  | constE : Nat → Exp

inductive Stmt where
  | functionDef : PStr → List Stmt → Nat → Stmt
  | asyncFunctionDef : PStr → List Stmt → Nat → Stmt
  | forStmt : Exp → Exp → List Stmt → List Stmt → Nat → Stmt
  | whileStmt : Exp → List Stmt → List Stmt → Nat → Stmt
  | exprStmt : Exp → Nat → Stmt
  | passStmt : Nat → Stmt

/-- A module is its statement list (`ast.Module.body`). -/
abbrev PyModule := List Stmt

/-- Severity enum shared by `performance_rules.py` and `trading_rules.py`. -/
inductive Severity where
  | critical | high | medium | low
deriving DecidableEq

/-- `PerformanceIssue` (the fields the claims are about; the free-text
message, snippet, fix and impact fields are omitted). -/
structure PerformanceIssue where
  severity : Severity
  rule : PStr
  lineNumber : Nat
deriving DecidableEq

/-- `QueryPatternDetector._get_call_name`, applied to `node.func`. -/
def getCallName : Exp → PStr
  | .name id _ => id
  | .attr _ a _ => a
  | _ => str "unknown"

/-- The `db_patterns` list of `QueryPatternDetector.visit_Call`. -/
def dbPatterns : List PStr :=
  [str "query", str "execute", str "fetch", str "get_by_id", str "select",
   str "find", str "filter", str "all", str "count", str "aggregate",
   str "db.session", str "db.query", str "db.execute"]

/-- `any(pattern in call_name.lower() for pattern in db_patterns)`. -/
def dbMatch (callName : PStr) : Bool :=
  dbPatterns.any (fun p => containsSub p (lowerStr callName))

/-- Mutable state of a `QueryPatternDetector` instance. -/
structure QPDState where
  inLoop : Bool
  loopDepth : Int
  issues : List PerformanceIssue
deriving DecidableEq

namespace QueryPatternDetector

/-- Epilogue shared by `visit_For` and `visit_While`: decrement the depth
and clear `in_loop` when the depth is back to zero. -/
def exitLoop (s : QPDState) : QPDState :=
  let s := { s with loopDepth := s.loopDepth - 1 }
  if s.loopDepth = 0 then { s with inLoop := false } else s

/-- Prologue shared by `visit_For` and `visit_While`: set `in_loop` and
increment the depth. -/
def enterLoop (s : QPDState) : QPDState :=
  { s with inLoop := true, loopDepth := s.loopDepth + 1 }

/-- Body of `visit_Call`: emit an N+1 issue when inside a loop and the
call name matches a database pattern. -/
def onCall (s : QPDState) (f : Exp) (ln : Nat) : QPDState :=
  if s.inLoop && dbMatch (getCallName f) then
    { s with issues := s.issues ++
        [⟨if s.loopDepth > 1 then .critical else .high,
          str "N+1 Query Pattern", ln⟩] }
  else s

mutual

/-- Visitor dispatch on expressions: only `visit_Call` is overridden; it
emits an N+1 issue when inside a loop and the call name matches a database
pattern, then recurses into the children. -/
def visitExp : QPDState → Exp → QPDState
  | s, .name _ _ => s
  | s, .constE _ => s
  | s, .attr v _ _ => visitExp s v
  | s, .call f args ln =>
    let s := onCall s f ln
    let s := visitExp s f
    visitExps s args

def visitExps : QPDState → List Exp → QPDState
  | s, [] => s
  | s, e :: rest => visitExps (visitExp s e) rest

end

set_option maxRecDepth 8000 in
mutual

/-- Visitor dispatch on statements for `QueryPatternDetector`: `visit_For`
and `visit_While` are overridden, everything else is `generic_visit`. -/
def visitStmt : QPDState → Stmt → QPDState
  | s, .functionDef _ body _ => visitStmts s body
  | s, .asyncFunctionDef _ body _ => visitStmts s body
  | s, .forStmt target iter body orelse _ =>
    let s := enterLoop s
    let s := visitExp s target
    let s := visitExp s iter
    let s := visitStmts s body
    let s := visitStmts s orelse
    exitLoop s
  | s, .whileStmt test body orelse _ =>
    let s := enterLoop s
    let s := visitExp s test
    let s := visitStmts s body
    let s := visitStmts s orelse
    exitLoop s
  | s, .exprStmt e _ => visitExp s e
  | s, .passStmt _ => s

def visitStmts : QPDState → List Stmt → QPDState
  | s, [] => s
  | s, t :: rest => visitStmts (visitStmt s t) rest

end

/-- Run the detector on a parsed module (fresh state, as `__init__` sets
`in_loop = False`, `loop_depth = 0`, `issues = []`). -/
def run (m : PyModule) : List PerformanceIssue :=
  (visitStmts ⟨false, 0, []⟩ m).issues

end QueryPatternDetector

/-- State of an `AlgorithmComplexityAnalyzer` instance.  `wentNeg` is an
audit field of the embedding, not of the source: it records whether
`nested_loops` was ever assigned a negative value, and is updated exactly
where `nested_loops` is assigned. -/
structure ACAState where
  currentFunction : Option PStr
  nestedLoops : Int
  maxNesting : Int
  wentNeg : Bool
  issues : List PerformanceIssue
deriving DecidableEq

/-- Assign `nested_loops := v`, recording in the audit field whether the
assigned value is negative. -/
def ACAState.setNested (s : ACAState) (v : Int) : ACAState :=
  { s with nestedLoops := v, wentNeg := s.wentNeg || decide (v < 0) }

namespace AlgorithmComplexityAnalyzer

/-- Prologue of `visit_FunctionDef`: record the current function, reset
`nested_loops` and `max_nesting` to 0, and emit the function-length issue
when the immediate body has more than 100 statements. -/
def enterFunction (s : ACAState) (nm : PStr) (bodyLen : Nat) (ln : Nat) : ACAState :=
  let s := { s with currentFunction := some nm }
  let s := s.setNested 0
  let s := { s with maxNesting := 0 }
  if bodyLen > 100 then
    { s with issues := s.issues ++ [⟨.medium, str "Function Complexity", ln⟩] }
  else s

/-- Prologue of `visit_For`: increment the nesting counter, update
`max_nesting`, and emit a deep-nesting issue at depth at least 3, `high`
from depth 4 on and `medium` at depth 3. -/
def enterFor (s : ACAState) (ln : Nat) : ACAState :=
  let s := s.setNested (s.nestedLoops + 1)
  let s := { s with maxNesting := max s.maxNesting s.nestedLoops }
  if s.nestedLoops ≥ 3 then
    { s with issues := s.issues ++
        [⟨if s.nestedLoops ≥ 4 then .high else .medium,
          str "Deeply Nested Loops", ln⟩] }
  else s

/-- Prologue of `visit_While`: like `enterFor` but the emitted severity is
always `medium`. -/
def enterWhile (s : ACAState) (ln : Nat) : ACAState :=
  let s := s.setNested (s.nestedLoops + 1)
  let s := { s with maxNesting := max s.maxNesting s.nestedLoops }
  if s.nestedLoops ≥ 3 then
    { s with issues := s.issues ++ [⟨.medium, str "Deeply Nested Loops", ln⟩] }
  else s

/-- Epilogue of `visit_For` / `visit_While`: decrement the counter. -/
def exitLoop (s : ACAState) : ACAState := s.setNested (s.nestedLoops - 1)

set_option maxRecDepth 8000 in
mutual

/-- Visitor for `AlgorithmComplexityAnalyzer`: `visit_FunctionDef`,
`visit_For` and `visit_While` are overridden, everything else is
`generic_visit`.  The analyzer defines no expression visitors and its
state never changes while visiting expressions, so the traversal of
expression children (loop targets, iterables, tests, expression
statements) is elided: it is the identity on the state. -/
def visitStmt : ACAState → Stmt → ACAState
  | s, .functionDef nm body ln =>
    let s := enterFunction s nm body.length ln
    let s := visitStmts s body
    { s with currentFunction := none }
  | s, .asyncFunctionDef _ body _ => visitStmts s body
  | s, .forStmt _ _ body orelse ln =>
    let s := enterFor s ln
    let s := visitStmts s body
    let s := visitStmts s orelse
    exitLoop s
  | s, .whileStmt _ body orelse ln =>
    let s := enterWhile s ln
    let s := visitStmts s body
    let s := visitStmts s orelse
    exitLoop s
  | s, .exprStmt _ _ => s
  | s, .passStmt _ => s

def visitStmts : ACAState → List Stmt → ACAState
  | s, [] => s
  | s, t :: rest => visitStmts (visitStmt s t) rest

end

/-- Run the analyzer on a parsed module (fresh state, as in `__init__`). -/
def run (m : PyModule) : ACAState :=
  visitStmts ⟨none, 0, 0, false, []⟩ m

end AlgorithmComplexityAnalyzer

/-- State of an `AsyncAwaitValidator` instance. -/
structure AAVState where
  inAsyncFunction : Bool
  issues : List PerformanceIssue
deriving DecidableEq

namespace AsyncAwaitValidator

/-- Body of `visit_Call`: flag known async-named calls made while inside
an async function (name equality against a fixed list). -/
def onCall (s : AAVState) (f : Exp) (ln : Nat) : AAVState :=
  if s.inAsyncFunction &&
      [str "sleep", str "wait", str "fetch", str "query", str "execute"].contains
        (getCallName f) then
    { s with issues := s.issues ++ [⟨.high, str "Async Pattern", ln⟩] }
  else s

mutual

def visitExp : AAVState → Exp → AAVState
  | s, .name _ _ => s
  | s, .constE _ => s
  | s, .attr v _ _ => visitExp s v
  | s, .call f args ln =>
    let s := onCall s f ln
    let s := visitExp s f
    visitExps s args

def visitExps : AAVState → List Exp → AAVState
  | s, [] => s
  | s, e :: rest => visitExps (visitExp s e) rest

end

set_option maxRecDepth 8000 in
mutual

/-- Visitor for `AsyncAwaitValidator`: `visit_AsyncFunctionDef` sets the
flat `in_async_function` flag around its body (and unconditionally clears
it afterwards); `visit_Call` is handled by `onCall`; everything else is
`generic_visit`. -/
def visitStmt : AAVState → Stmt → AAVState
  | s, .functionDef _ body _ => visitStmts s body
  | s, .asyncFunctionDef _ body _ =>
    let s := { s with inAsyncFunction := true }
    let s := visitStmts s body
    { s with inAsyncFunction := false }
  | s, .forStmt target iter body orelse _ =>
    let s := visitExp s target
    let s := visitExp s iter
    let s := visitStmts s body
    visitStmts s orelse
  | s, .whileStmt test body orelse _ =>
    let s := visitExp s test
    let s := visitStmts s body
    visitStmts s orelse
  | s, .exprStmt e _ => visitExp s e
  | s, .passStmt _ => s

def visitStmts : AAVState → List Stmt → AAVState
  | s, [] => s
  | s, t :: rest => visitStmts (visitStmt s t) rest

end

/-- Run the validator on a parsed module. -/
def run (m : PyModule) : List PerformanceIssue :=
  (visitStmts ⟨false, []⟩ m).issues

end AsyncAwaitValidator

/-- The regex `open\s*\(` tried at one position. -/
def openCallAt (l : PStr) : Bool :=
  ((eatLit (str "open") l).bind
    (fun l2 => eatLit (str "(") (eatMany isPySpace l2))).isSome

/-- `re.search(r'open\s*\(', line)`. -/
def openCallSearch (l : PStr) : Bool := searchBy openCallAt l

namespace MemoryLeakDetector

/-- Condition of `_check_file_handles` for one line, given the previous
line (`none` when the line is the first, i.e. `i == 0`): the line opens a
file, has no `with`, and there is a previous line which also has no
`with`.  On the first line the `i > 0` conjunct fails. -/
def fileHandleCond (l : PStr) (prev : Option PStr) : Bool :=
  openCallSearch l && !containsSub (str "with") l &&
    (match prev with
     | none => false
     | some p => !containsSub (str "with") p)

/-- The scan loop of `_check_file_handles`, carrying the 0-based index and
the previous line. -/
def fileHandlesGo : Nat → Option PStr → List PStr → List PerformanceIssue
  | _, _, [] => []
  | i, prev, l :: rest =>
    (if fileHandleCond l prev then
      [⟨.high, str "Resource Management", i + 1⟩]
    else []) ++ fileHandlesGo (i + 1) (some l) rest

/-- `MemoryLeakDetector._check_file_handles`. -/
def checkFileHandles (lines : List PStr) : List PerformanceIssue :=
  fileHandlesGo 0 none lines

/-- `MemoryLeakDetector._check_unbounded_collections`: an `.append(` line
with `while True` somewhere in the previous ten lines. -/
def checkUnbounded (lines : List PStr) : List PerformanceIssue :=
  (List.range lines.length).filterMap (fun i =>
    let l := lines.getD i []
    if containsSub (str ".append(") l &&
        containsSub (str "while True") (joinNl (window lines (i - 10) i)) then
      some ⟨.critical, str "Unbounded Collection", i + 1⟩
    else none)

/-- The scan loop of `_check_circular_references`: the `break` after the
first emitted issue ends the whole loop, so at most one issue is emitted
per file.  Structural recursion is on the remaining line count. -/
def circularGo (lines : List PStr) : Nat → Nat → List PerformanceIssue
  | 0, _ => []
  | fuel + 1, i =>
    let l := lines.getD i []
    let ctx := joinNl (window lines (i - 5) (min lines.length (i + 5)))
    if containsSub (str "self.") l && containsSub (str "=") l &&
        (containsSub (str "self.") ctx && countCharEq '=' ctx > 3) then
      [⟨.low, str "Potential Circular Reference", i + 1⟩]
    else circularGo lines fuel (i + 1)

/-- `MemoryLeakDetector._check_circular_references`. -/
def checkCircular (lines : List PStr) : List PerformanceIssue :=
  circularGo lines lines.length 0

/-- `MemoryLeakDetector.analyze`: split into lines and run the three
checks in order. -/
def analyze (content : PStr) : List PerformanceIssue :=
  let lines := splitLines content
  checkFileHandles lines ++ checkUnbounded lines ++ checkCircular lines

end MemoryLeakDetector

namespace LatencyValidator

/-- The four `blocking_patterns` of `_check_blocking_operations`.  Each
regex is a literal alternation, embedded as the list of its literals. -/
def blockingPatterns : List (List PStr) :=
  [[str "requests.get", str "requests.post", str "requests.put",
    str "requests.delete"],
   [str "time.sleep"],
   [str "socket.socket", str "socket.connect"],
   [str "subprocess.run", str "os.system"]]

/-- Event-handler context test of `_check_blocking_operations`: the
twenty lines strictly before the current one, joined, mention an event
handler name. -/
def handlerContext (lines : List PStr) (i : Nat) : Bool :=
  let ctx := joinNl (window lines (i - 20) i)
  containsSub (str "on_event") ctx || containsSub (str "handle_event") ctx ||
    containsSub (str "process_event") ctx

/-- `LatencyValidator._check_blocking_operations`: for a line in handler
context, one issue per blocking pattern that matches the line. -/
def checkBlocking (lines : List PStr) : List PerformanceIssue :=
  (List.range lines.length).flatMap (fun i =>
    let l := lines.getD i []
    if handlerContext lines i then
      blockingPatterns.filterMap (fun pats =>
        if pats.any (fun p => containsSub p l) then
          some ⟨.high, str "Blocking Operation in Event Handler", i + 1⟩
        else none)
    else [])

/-- The regex `for\s+\w+\s+in\s+range\s*\(\s*\d{6,}` tried at one
position. -/
def longLoopAt (l : PStr) : Bool :=
  ((eatLit (str "for") l).bind (fun l => eatMany1 isPySpace l) |>.bind
    (fun l => eatMany1 isWordChar l) |>.bind
    (fun l => eatMany1 isPySpace l) |>.bind
    (fun l => eatLit (str "in") l) |>.bind
    (fun l => eatMany1 isPySpace l) |>.bind
    (fun l => eatLit (str "range") l) |>.bind
    (fun l => eatLit (str "(") (eatMany isPySpace l)) |>.bind
    (fun l => eatCount Char.isDigit 6 (eatMany isPySpace l))).isSome

/-- `LatencyValidator._check_long_running_operations`. -/
def checkLongRunning (lines : List PStr) : List PerformanceIssue :=
  (List.range lines.length).filterMap (fun i =>
    if searchBy longLoopAt (lines.getD i []) then
      some ⟨.medium, str "Potentially Long Loop", i + 1⟩
    else none)

/-- `LatencyValidator.analyze`. -/
def analyze (content : PStr) : List PerformanceIssue :=
  let lines := splitLines content
  checkBlocking lines ++ checkLongRunning lines

end LatencyValidator

namespace PerformanceValidator

/-- `PerformanceValidator.validate`.  `ast.parse` is external to the rule
module; its outcome is the `parsed` argument: `some tree` for a file that
parses, `none` when `ast.parse` raises `SyntaxError`, in which case the
`except SyntaxError: pass` clause skips the three tree-based checks and
adds nothing.  The regex-based checks always run on the raw content. -/
def validate (parsed : Option PyModule) (content : PStr) : List PerformanceIssue :=
  (match parsed with
   | some tree =>
     QueryPatternDetector.run tree ++
       (AlgorithmComplexityAnalyzer.run tree).issues ++
       AsyncAwaitValidator.run tree
   | none => []) ++
    MemoryLeakDetector.analyze content ++ LatencyValidator.analyze content

end PerformanceValidator

/-- `SecurityIssue` (severity and rule are plain strings in
`security_rules.py`). -/
structure SecurityIssue where
  severity : PStr
  rule : PStr
  lineNumber : Nat
deriving DecidableEq

namespace SecurityValidator

/-- Is the character one of the quotes of the regex class `["\']`. -/
def isQuote (c : Char) : Bool := c = '"' || c = sqCh

/-- The common tail `\s*=\s*["\']([^"\']+)["\']` of the named API-key
patterns, tried at one position; returns the rest after the match. -/
def keyTail (l : PStr) : Option PStr :=
  (eatLit (str "=") (eatMany isPySpace l)).bind (fun l =>
    match eatMany isPySpace l with
    | q :: rest =>
      if isQuote q then
        match rest with
        | c :: _ =>
          if isQuote c then none
          else
            match rest.dropWhile (fun d => !isQuote d) with
            | q2 :: rest2 => if isQuote q2 then some rest2 else none
            | [] => none
        | [] => none
      else none
    | [] => none)

/-- Matcher for a named pattern `NAME\s*=\s*["\']([^"\']+)["\']`. -/
def matchNamedKey (nm : PStr) (l : PStr) : Option PStr :=
  (eatLit nm l).bind keyTail

/-- Rightmost-successful matcher, embedding a greedy `.*` in front of the
given matcher. -/
def lastMatch (m : PStr → Option PStr) : PStr → Option PStr
  | [] => m []
  | c :: rest =>
    match lastMatch m rest with
    | some r => some r
    | none => m (c :: rest)

/-- Matcher for `SUPABASE_.*_KEY\s*=\s*["\']([^"\']+)["\']`. -/
def matchSupabase (l : PStr) : Option PStr :=
  (eatLit (str "SUPABASE_") l).bind
    (lastMatch (fun l2 => (eatLit (str "_KEY") l2).bind keyTail))

/-- Matcher for the generic pattern `["\'][a-zA-Z0-9]{40,}["\']`: a quote,
a maximal run of at least forty alphanumerics, then a quote. -/
def matchGeneric (l : PStr) : Option PStr :=
  match l with
  | q :: rest =>
    if isQuote q then
      if (rest.takeWhile Char.isAlphanum).length ≥ 40 then
        match rest.dropWhile Char.isAlphanum with
        | q2 :: rest2 => if isQuote q2 then some rest2 else none
        | [] => none
      else none
    else none
  | [] => none

/-- `API_KEY_PATTERNS`, in dictionary (insertion) order. -/
def apiKeyPatterns : List (PStr → Option PStr) :=
  [matchNamedKey (str "COINBASE_API_KEY"),
   matchNamedKey (str "BINANCE_API_KEY"),
   matchNamedKey (str "KRAKEN_API_KEY"),
   matchNamedKey (str "ANTHROPIC_API_KEY"),
   matchNamedKey (str "POLYGON_API_KEY"),
   matchSupabase,
   matchNamedKey (str "aws_access_key_id"),
   matchGeneric]

/-- The environment-variable-reference test that suppresses a match:
`'os.getenv' in line or 'environ' in line or '${' in line`. -/
def envRef (l : PStr) : Bool :=
  containsSub (str "os.getenv") l || containsSub (str "environ") l ||
    containsSub (str "$\x7b") l

/-- Issues emitted for one line by `validate_api_key_exposure`: the line
is skipped when it is a comment or the file path contains `.env`; each
`finditer` match of each pattern yields one critical issue, except that an
environment-variable reference on the line suppresses them all. -/
def apiKeyLineIssues (skipFile : Bool) (l : PStr) (i : Nat) : List SecurityIssue :=
  if stripStartsHash l || skipFile then []
  else
    apiKeyPatterns.flatMap (fun m =>
      let cnt := finditerCount m (l.length + 1) l
      if envRef l then []
      else List.replicate cnt ⟨str "critical", str "api_key_exposure", i⟩)

/-- `SecurityValidator.validate_api_key_exposure`. -/
def validateApiKeyExposure (filePath : PStr) (content : PStr) : List SecurityIssue :=
  let skipFile := containsSub (str ".env") filePath
  let lines := splitLines content
  (List.range lines.length).flatMap (fun i =>
    apiKeyLineIssues skipFile (lines.getD i []) (i + 1))

end SecurityValidator

/-- `TaxIssue` (severity and rule are plain strings in `tax_rules.py`). -/
structure TaxIssue where
  severity : PStr
  rule : PStr
  lineNumber : Nat
deriving DecidableEq

namespace TaxValidator

/-- Anchor condition of the holding-period check:
`'holding' in line.lower() and ('365' in line or 'year' in line.lower())`. -/
def holdingAnchor (l : PStr) : Bool :=
  containsSub (str "holding") (lowerStr l) &&
    (containsSub (str "365") l || containsSub (str "year") (lowerStr l))

/-- Flag condition of the holding-period check:
`'>= 365' in line or '> 365' not in line`. -/
def boundaryFlag (l : PStr) : Bool :=
  containsSub (str ">= 365") l || !containsSub (str "> 365") l

/-- Issues emitted for one line by `validate_ltcg_classification`: the
boundary check and then the tax-rate check. -/
def ltcgLineIssues (l : PStr) (i : Nat) : List TaxIssue :=
  (if holdingAnchor l && boundaryFlag l then
    [⟨str "high", str "ltcg_holding_period_boundary", i⟩]
  else []) ++
  (if containsSub (str "tax_rate") (lowerStr l) &&
      containsSub (str "ltcg") (lowerStr l) &&
      !containsSub (str "0.20") l && !containsSub (str "20%") l &&
      !containsSub (str "20") l then
    [⟨str "high", str "ltcg_tax_rate_incorrect", i⟩]
  else [])

/-- The scan loop of `validate_ltcg_classification`, carrying the 1-based
line number. -/
def ltcgGo (k : Nat) : List PStr → List TaxIssue
  | [] => []
  | l :: rest => ltcgLineIssues l k ++ ltcgGo (k + 1) rest

/-- `TaxValidator.validate_ltcg_classification`. -/
def validateLtcgClassification (content : PStr) : List TaxIssue :=
  ltcgGo 1 (splitLines content)

end TaxValidator

/-- `TradingIssue` (the fields the claims are about; `trading_rules.py`
uses the same `Severity` enum as `performance_rules.py`). -/
structure TradingIssue where
  severity : Severity
  rule : PStr
  lineNumber : Nat
deriving DecidableEq

namespace KellyCriterionValidator

/-- The anchor regex `kelly|fraction|position_size` with `re.IGNORECASE`. -/
def kellyLine (l : PStr) : Bool :=
  containsSub (str "kelly") (lowerStr l) ||
    containsSub (str "fraction") (lowerStr l) ||
    containsSub (str "position_size") (lowerStr l)

/-- The context window of `_validate_kelly_formula` around 0-based line
`i`: `self.lines[max(0, i-3):min(len(self.lines), i+4)]`, joined. -/
def kellyContext (lines : List PStr) (i : Nat) : PStr :=
  joinNl (window lines (i - 3) (min lines.length (i + 4)))

/-- `has_win_prob`: `'p' in context or 'win_probability' in context or
'win_prob' in context`. -/
def hasWinProb (ctx : PStr) : Bool :=
  containsSub (str "p") ctx || containsSub (str "win_probability") ctx ||
    containsSub (str "win_prob") ctx

/-- `has_lose_prob`: `'q' in context or '1-p' in context or 'lose_prob'
in context`. -/
def hasLoseProb (ctx : PStr) : Bool :=
  containsSub (str "q") ctx || containsSub (str "1-p") ctx ||
    containsSub (str "lose_prob") ctx

/-- `has_payoff_ratio`: `'b' in context or 'payoff_ratio' in context or
'odds' in context`. -/
def hasPayoffRatio (ctx : PStr) : Bool :=
  containsSub (str "b") ctx || containsSub (str "payoff_ratio") ctx ||
    containsSub (str "odds") ctx

/-- Completeness of the formula context. -/
def contextComplete (ctx : PStr) : Bool :=
  hasWinProb ctx && hasLoseProb ctx && hasPayoffRatio ctx

/-- The scan loop of `_validate_kelly_formula`: on the first anchor line
whose context is incomplete, emit one critical issue and `break`; if the
loop finishes without ever seeing an anchor line, emit the
`Kelly Criterion Missing` issue at line 1.  The first list argument is
the full line list (for the context window); recursion is on the suffix
still to scan, with `i` its 0-based start index and `found` the
`found_kelly` flag. -/
def formulaGo (lines : List PStr) : List PStr → Nat → Bool → List TradingIssue
  | [], _, found =>
    if found then [] else [⟨.high, str "Kelly Criterion Missing", 1⟩]
  | l :: rest, i, found =>
    if kellyLine l then
      if !contextComplete (kellyContext lines i) then
        [⟨.critical, str "Kelly Criterion Formula", i + 1⟩]
      else formulaGo lines rest (i + 1) true
    else formulaGo lines rest (i + 1) found

/-- `KellyCriterionValidator._validate_kelly_formula`, applied to content
already split into lines by `analyze`. -/
def validateKellyFormula (lines : List PStr) : List TradingIssue :=
  formulaGo lines lines 0 false

end KellyCriterionValidator

/-- `ScanIssue` of `deep_scan.py` (severity and category are strings;
scores are floats used only additively, modelled as rationals). -/
structure ScanIssue where
  severity : PStr
  category : PStr
  lineNumber : Nat
  impactScore : Rat
  effortScore : Rat
deriving DecidableEq

namespace DeepScanner

/-- `len([i for i in issues if i.severity == 'critical'])`. -/
def criticalCount (issues : List ScanIssue) : Nat :=
  (issues.filter (fun i => i.severity = str "critical")).length

/-- `len([i for i in issues if i.severity == 'high'])`. -/
def highCount (issues : List ScanIssue) : Nat :=
  (issues.filter (fun i => i.severity = str "high")).length

/-- `sum(i.impact_score for i in issues)`. -/
def totalImpact (issues : List ScanIssue) : Rat :=
  (issues.map (fun i => i.impactScore)).sum

/-- The risk score computed by `_generate_statistics`:
`critical_issues * 10 + high_issues * 5 + total_impact`. -/
def riskScore (issues : List ScanIssue) : Rat :=
  (criticalCount issues : Rat) * 10 + (highCount issues : Rat) * 5 +
    totalImpact issues

/-- The qualitative risk band chosen by `_generate_statistics` for the
statistics report (the report prints the upper-case label). -/
def riskBand (issues : List ScanIssue) : PStr :=
  if criticalCount issues > 5 then str "critical"
  else if criticalCount issues > 0 then str "high"
  else if highCount issues > 10 then str "medium"
  else str "low"

/-- `PerformanceAnalyzer._check_memory_patterns` of `deep_scan.py`.  With
1-based `enumerate`, `lines[i-1]` is the current line itself, and the
conditional expression `... if i > 1 else False` makes the whole test
false on the first line; so a line is flagged when it is not the first,
contains an `open(` call, and has no `with` on that same line. -/
def checkMemoryPatterns (lines : List PStr) : List ScanIssue :=
  (List.range lines.length).filterMap (fun i0 =>
    let l := lines.getD i0 []
    if i0 + 1 > 1 && (openCallSearch l && !containsSub (str "with") l) then
      some ⟨str "high", str "resource_leak", i0 + 1, 6 / 10, 2 / 10⟩
    else none)

end DeepScanner

namespace EventProcessingProfiler

/-- The percentile record returned by `get_percentiles` for a non-empty
latency list (the Python `dict` with keys p50/p95/p99/min/max/avg). -/
structure Percentiles where
  p50 : Rat
  p95 : Rat
  p99 : Rat
  minL : Rat
  maxL : Rat
  avg : Rat
deriving DecidableEq

/-- Insert into a sorted list (ascending). -/
def insertSorted (x : Rat) : List Rat → List Rat
  | [] => [x]
  | y :: rest => if x ≤ y then x :: y :: rest else y :: insertSorted x rest

/-- Python `sorted(latencies)` (insertion sort; the claims depend only on
the length, which sorting preserves). -/
def sortLat (l : List Rat) : List Rat := l.foldr insertSorted []

/-- Python `min(latencies)` for a non-empty list (0 otherwise, a case the
source guards against). -/
def listMin : List Rat → Rat
  | [] => 0
  | x :: rest => rest.foldl min x

/-- Python `max(latencies)` for a non-empty list. -/
def listMax : List Rat → Rat
  | [] => 0
  | x :: rest => rest.foldl max x

/-- The percentile index `int(len(latencies) * q)` for `q = c/100`.  The
float products `n * 0.50`, `n * 0.95`, `n * 0.99` truncate to the same
integer as the exact rational products (`0.5` is exact in binary, and for
the other two the relative rounding error, at most `2^-52`, is far below
the distance `n/100` to the next integer), so `int(n * q)` is modelled as
`n * c / 100` in natural division. -/
def pctIndex (n c : Nat) : Nat := n * c / 100

/-- `EventProcessingProfiler.get_percentiles`, given the recorded latency
list of one event type (`self.event_latencies.get(event_type, [])`).
Returns `none` for the empty dict the source returns when no latencies
were recorded.  Out-of-range indices fall back to 0 via `getD`; the
bounds theorem shows the fallback is never taken. -/
def getPercentiles (latencies : List Rat) : Option Percentiles :=
  let s := sortLat latencies
  match s with
  | [] => none
  | _ :: _ =>
    some ⟨s.getD (pctIndex s.length 50) 0,
          s.getD (pctIndex s.length 95) 0,
          s.getD (pctIndex s.length 99) 0,
          listMin latencies, listMax latencies,
          (latencies.map id).sum / (latencies.length : Rat)⟩

/-- The per-type latency store built by `record_event_processing`: the
recorded `(event_type, latency)` pairs in order; `defaultdict(list)`
lookup is the filtered projection. -/
def latenciesOf (records : List (PStr × Rat)) (eventType : PStr) : List Rat :=
  (records.filter (fun r => r.1 = eventType)).map (fun r => r.2)

/-- `get_percentiles` on the profiler state for one event type. -/
def getPercentilesFor (records : List (PStr × Rat)) (eventType : PStr) :
    Option Percentiles :=
  getPercentiles (latenciesOf records eventType)

end EventProcessingProfiler
-- C1 section draft (appended to embedding for testing)
/-- A chain of uniformly nested loops: each list entry chooses `for`
(`true`) or `while` (`false`) and gives the lineno of the loop header;
the innermost body is the given statement. -/
def nestedLoopChain : List (Bool × Nat) → Stmt → Stmt
  | [], inner => inner
  | (true, ln) :: rest, inner =>
    .forStmt (.name (str "i") ln) (.name (str "items") ln)
      [nestedLoopChain rest inner] [] ln
  | (false, ln) :: rest, inner =>
    .whileStmt (.name (str "cond") ln) [nestedLoopChain rest inner] [] ln

/-- An expression statement making a single call of the given name. -/
def dbCallStmt (nm : PStr) (ln : Nat) : Stmt :=
  .exprStmt (.call (.name nm ln) [] ln) ln

/-- Running the `QueryPatternDetector` visitor over a uniform loop nest
whose innermost body is one database-shaped call: the state threading of
`visit_For` / `visit_While` / `visit_Call`, for any start depth `d ≥ 0`. -/
theorem qpd_visit_nestedLoopChain (nm : PStr) (ln : Nat) (hdb : dbMatch nm = true) :
    ∀ (cs : List (Bool × Nat)) (d : Int) (il : Bool) (is : List PerformanceIssue),
      cs ≠ [] → 0 ≤ d →
      QueryPatternDetector.visitStmt ⟨il, d, is⟩
          (nestedLoopChain cs (dbCallStmt nm ln)) =
        ⟨if d = 0 then false else true, d,
         is ++ [⟨if d + cs.length > 1 then .critical else .high,
                 str "N+1 Query Pattern", ln⟩]⟩ := by
  intro cs
  induction cs with
  | nil => intro d il is h; exact absurd rfl h
  | cons hd rest ih =>
    intro d il is _ hd0
    obtain ⟨b, l1⟩ := hd
    rcases rest with _ | ⟨hd2, rest2⟩
    · cases b <;>
      · simp only [nestedLoopChain, dbCallStmt, QueryPatternDetector.visitStmt,
          QueryPatternDetector.visitStmts, QueryPatternDetector.visitExp,
          QueryPatternDetector.visitExps, QueryPatternDetector.enterLoop,
          QueryPatternDetector.exitLoop, QueryPatternDetector.onCall,
          getCallName, hdb, Bool.true_and, Bool.and_true, List.length_cons,
          List.length_nil]
        norm_num
        split <;> simp_all
    · have hne : hd2 :: rest2 ≠ [] := by simp
      have hd1 : (0:Int) ≤ d + 1 := by omega
      cases b <;>
      · simp only [nestedLoopChain, QueryPatternDetector.visitStmt,
          QueryPatternDetector.visitStmts, QueryPatternDetector.visitExp,
          QueryPatternDetector.visitExps, QueryPatternDetector.enterLoop]
        rw [ih (d + 1) true is hne hd1]
        simp only [QueryPatternDetector.visitStmts, QueryPatternDetector.exitLoop]
        have : d + 1 ≠ 0 := by omega
        simp only [this, if_false]
        have harith : ∀ r : Int, (1 < d + 1 + (r + 1)) = (1 < d + (r + 1 + 1)) := by
          intro r; exact propext (by constructor <;> intro <;> omega)
        norm_num
        simp only [harith]
        split <;> simp_all

/-- C1: for a file that is exactly `k ≥ 1` uniformly nested loops (each
`for` or `while`) whose innermost body makes one database-shaped call,
`QueryPatternDetector` emits exactly one N+1 Query Pattern issue, at the
line of the call, with severity critical when `k > 1` and high when
`k = 1`. -/
theorem qpd_uniform_nest_single_issue (cs : List (Bool × Nat)) (nm : PStr)
    (ln : Nat) (hk : cs ≠ []) (hdb : dbMatch nm = true) :
    QueryPatternDetector.run [nestedLoopChain cs (dbCallStmt nm ln)] =
      [⟨if 1 < cs.length then .critical else .high,
        str "N+1 Query Pattern", ln⟩] := by
  unfold QueryPatternDetector.run
  simp only [QueryPatternDetector.visitStmts]
  rw [qpd_visit_nestedLoopChain nm ln hdb cs 0 false [] hk le_rfl]
  have h2 : ((0 : Int) + (cs.length : Int) > 1) = (1 < cs.length) :=
    propext (by constructor <;> intro <;> omega)
  simp only [h2]
  simp

/-- Witness for `qpd_uniform_nest_single_issue`: a `for` loop containing
a `while` loop containing `execute(...)` yields one critical issue at
line 3. -/
theorem qpd_uniform_nest_single_issue_witness :
    QueryPatternDetector.run
        [nestedLoopChain [(true, 1), (false, 2)] (dbCallStmt (str "execute") 3)] =
      [⟨.critical, str "N+1 Query Pattern", 3⟩] := by
  have h := qpd_uniform_nest_single_issue [(true, 1), (false, 2)]
    (str "execute") 3 (by decide) (by decide)
  simpa using h

mutual

/-- No `FunctionDef` node anywhere in the statement's subtree. -/
def noFunDef : Stmt → Bool
  | .functionDef _ _ _ => false
  | .asyncFunctionDef _ b _ => noFunDefList b
  | .forStmt _ _ b o _ => noFunDefList b && noFunDefList o
  | .whileStmt _ b o _ => noFunDefList b && noFunDefList o
  | .exprStmt _ _ => true
  | .passStmt _ => true

def noFunDefList : List Stmt → Bool
  | [] => true
  | t :: rest => noFunDef t && noFunDefList rest

end

mutual

/-- Every `FunctionDef` in the subtree sits outside the body (and
`orelse`) of every loop: the side condition under which the complexity
analyzer's counter discipline is sound. -/
def funDefsOutsideLoops : Stmt → Bool
  | .functionDef _ b _ => funDefsOutsideLoopsList b
  | .asyncFunctionDef _ b _ => funDefsOutsideLoopsList b
  | .forStmt _ _ b o _ => noFunDefList b && noFunDefList o
  | .whileStmt _ b o _ => noFunDefList b && noFunDefList o
  | .exprStmt _ _ => true
  | .passStmt _ => true

def funDefsOutsideLoopsList : List Stmt → Bool
  | [] => true
  | t :: rest => funDefsOutsideLoops t && funDefsOutsideLoopsList rest

end

namespace AlgorithmComplexityAnalyzer

theorem enterFor_proj (s : ACAState) (ln : Nat) :
    (enterFor s ln).nestedLoops = s.nestedLoops + 1 ∧
    (enterFor s ln).wentNeg = (s.wentNeg || decide (s.nestedLoops + 1 < 0)) := by
  unfold enterFor ACAState.setNested
  dsimp only
  split <;> simp

theorem enterWhile_proj (s : ACAState) (ln : Nat) :
    (enterWhile s ln).nestedLoops = s.nestedLoops + 1 ∧
    (enterWhile s ln).wentNeg = (s.wentNeg || decide (s.nestedLoops + 1 < 0)) := by
  unfold enterWhile ACAState.setNested
  dsimp only
  split <;> simp

theorem exitLoop_proj (s : ACAState) :
    (exitLoop s).nestedLoops = s.nestedLoops - 1 ∧
    (exitLoop s).wentNeg = (s.wentNeg || decide (s.nestedLoops - 1 < 0)) := by
  unfold exitLoop ACAState.setNested
  simp

theorem enterFunction_proj (s : ACAState) (nm : PStr) (bl ln : Nat) :
    (enterFunction s nm bl ln).nestedLoops = 0 ∧
    (enterFunction s nm bl ln).wentNeg = s.wentNeg := by
  unfold enterFunction ACAState.setNested
  dsimp only
  split <;> simp

mutual

/-- Over a subtree containing no `FunctionDef`, the analyzer restores the
nesting counter and never drives it negative (the audit flag is
unchanged), for any start state with a non-negative counter. -/
theorem noFunDef_preserves (t : Stmt) :
    noFunDef t = true → ∀ s : ACAState, 0 ≤ s.nestedLoops →
      (visitStmt s t).nestedLoops = s.nestedLoops ∧
      (visitStmt s t).wentNeg = s.wentNeg := by
  cases t with
  | functionDef nm b ln => intro h; exact absurd h (by simp [noFunDef])
  | asyncFunctionDef nm b ln =>
    intro h s hd
    simp only [noFunDef] at h
    simpa [visitStmt] using noFunDefList_preserves b h s hd
  | forStmt tg it b o ln =>
    intro h s hd
    simp only [noFunDef, Bool.and_eq_true] at h
    obtain ⟨hb, ho⟩ := h
    simp only [visitStmt]
    obtain ⟨e1, e2⟩ := enterFor_proj s ln
    have hd1 : 0 ≤ (enterFor s ln).nestedLoops := by rw [e1]; omega
    obtain ⟨b1, b2⟩ := noFunDefList_preserves b hb (enterFor s ln) hd1
    have hd2 : 0 ≤ (visitStmts (enterFor s ln) b).nestedLoops := by rw [b1]; omega
    obtain ⟨o1, o2⟩ := noFunDefList_preserves o ho (visitStmts (enterFor s ln) b) hd2
    obtain ⟨x1, x2⟩ := exitLoop_proj (visitStmts (visitStmts (enterFor s ln) b) o)
    rw [x1, x2, o1, o2, b1, b2, e1, e2]
    constructor
    · omega
    · have c1 : ¬ (s.nestedLoops + 1 < 0) := by omega
      have c2 : ¬ (s.nestedLoops + 1 - 1 < 0) := by omega
      have c3 : ¬ (s.nestedLoops < 0) := by omega
      simp [c1, c2, c3]
  | whileStmt tst b o ln =>
    intro h s hd
    simp only [noFunDef, Bool.and_eq_true] at h
    obtain ⟨hb, ho⟩ := h
    simp only [visitStmt]
    obtain ⟨e1, e2⟩ := enterWhile_proj s ln
    have hd1 : 0 ≤ (enterWhile s ln).nestedLoops := by rw [e1]; omega
    obtain ⟨b1, b2⟩ := noFunDefList_preserves b hb (enterWhile s ln) hd1
    have hd2 : 0 ≤ (visitStmts (enterWhile s ln) b).nestedLoops := by rw [b1]; omega
    obtain ⟨o1, o2⟩ := noFunDefList_preserves o ho (visitStmts (enterWhile s ln) b) hd2
    obtain ⟨x1, x2⟩ := exitLoop_proj (visitStmts (visitStmts (enterWhile s ln) b) o)
    rw [x1, x2, o1, o2, b1, b2, e1, e2]
    constructor
    · omega
    · have c1 : ¬ (s.nestedLoops + 1 < 0) := by omega
      have c2 : ¬ (s.nestedLoops + 1 - 1 < 0) := by omega
      have c3 : ¬ (s.nestedLoops < 0) := by omega
      simp [c1, c2, c3]
  | exprStmt e ln => intro _ s _; simp [visitStmt]
  | passStmt ln => intro _ s _; simp [visitStmt]

theorem noFunDefList_preserves (ts : List Stmt) :
    noFunDefList ts = true → ∀ s : ACAState, 0 ≤ s.nestedLoops →
      (visitStmts s ts).nestedLoops = s.nestedLoops ∧
      (visitStmts s ts).wentNeg = s.wentNeg := by
  cases ts with
  | nil => intro _ s _; simp [visitStmts]
  | cons t rest =>
    intro h s hd
    simp only [noFunDefList, Bool.and_eq_true] at h
    obtain ⟨ht, hrest⟩ := h
    simp only [visitStmts]
    obtain ⟨t1, t2⟩ := noFunDef_preserves t ht s hd
    have hd1 : 0 ≤ (visitStmt s t).nestedLoops := by rw [t1]; omega
    obtain ⟨r1, r2⟩ := noFunDefList_preserves rest hrest (visitStmt s t) hd1
    rw [r1, r2, t1, t2]
    exact ⟨rfl, rfl⟩

end

mutual

/-- From a state with counter 0, over a subtree all of whose function
definitions sit outside loops, the analyzer returns the counter to 0 and
never assigns it a negative value. -/
theorem outsideLoops_preserves (t : Stmt) :
    funDefsOutsideLoops t = true → ∀ s : ACAState, s.nestedLoops = 0 →
      (visitStmt s t).nestedLoops = 0 ∧
      (visitStmt s t).wentNeg = s.wentNeg := by
  cases t with
  | functionDef nm b ln =>
    intro h s hs
    simp only [funDefsOutsideLoops] at h
    simp only [visitStmt]
    obtain ⟨e1, e2⟩ := enterFunction_proj s nm b.length ln
    obtain ⟨b1, b2⟩ := outsideLoopsList_preserves b h (enterFunction s nm b.length ln) e1
    exact ⟨by simp [b1], by simp [b2, e2]⟩
  | asyncFunctionDef nm b ln =>
    intro h s hs
    simp only [funDefsOutsideLoops] at h
    simpa [visitStmt] using outsideLoopsList_preserves b h s hs
  | forStmt tg it b o ln =>
    intro h s hs
    simp only [funDefsOutsideLoops, Bool.and_eq_true] at h
    obtain ⟨hb, ho⟩ := h
    simp only [visitStmt]
    obtain ⟨e1, e2⟩ := enterFor_proj s ln
    have hd1 : 0 ≤ (enterFor s ln).nestedLoops := by rw [e1]; omega
    obtain ⟨b1, b2⟩ := noFunDefList_preserves b hb (enterFor s ln) hd1
    have hd2 : 0 ≤ (visitStmts (enterFor s ln) b).nestedLoops := by rw [b1]; omega
    obtain ⟨o1, o2⟩ := noFunDefList_preserves o ho (visitStmts (enterFor s ln) b) hd2
    obtain ⟨x1, x2⟩ := exitLoop_proj (visitStmts (visitStmts (enterFor s ln) b) o)
    rw [x1, x2, o1, o2, b1, b2, e1, e2]
    constructor
    · omega
    · have c1 : ¬ (s.nestedLoops + 1 < 0) := by omega
      have c2 : ¬ (s.nestedLoops + 1 - 1 < 0) := by omega
      have c3 : ¬ (s.nestedLoops < 0) := by omega
      simp [c1, c2, c3]
  | whileStmt tst b o ln =>
    intro h s hs
    simp only [funDefsOutsideLoops, Bool.and_eq_true] at h
    obtain ⟨hb, ho⟩ := h
    simp only [visitStmt]
    obtain ⟨e1, e2⟩ := enterWhile_proj s ln
    have hd1 : 0 ≤ (enterWhile s ln).nestedLoops := by rw [e1]; omega
    obtain ⟨b1, b2⟩ := noFunDefList_preserves b hb (enterWhile s ln) hd1
    have hd2 : 0 ≤ (visitStmts (enterWhile s ln) b).nestedLoops := by rw [b1]; omega
    obtain ⟨o1, o2⟩ := noFunDefList_preserves o ho (visitStmts (enterWhile s ln) b) hd2
    obtain ⟨x1, x2⟩ := exitLoop_proj (visitStmts (visitStmts (enterWhile s ln) b) o)
    rw [x1, x2, o1, o2, b1, b2, e1, e2]
    constructor
    · omega
    · have c1 : ¬ (s.nestedLoops + 1 < 0) := by omega
      have c2 : ¬ (s.nestedLoops + 1 - 1 < 0) := by omega
      have c3 : ¬ (s.nestedLoops < 0) := by omega
      simp [c1, c2, c3]
  | exprStmt e ln => intro _ s hs; simp [visitStmt, hs]
  | passStmt ln => intro _ s hs; simp [visitStmt, hs]

theorem outsideLoopsList_preserves (ts : List Stmt) :
    funDefsOutsideLoopsList ts = true → ∀ s : ACAState, s.nestedLoops = 0 →
      (visitStmts s ts).nestedLoops = 0 ∧
      (visitStmts s ts).wentNeg = s.wentNeg := by
  cases ts with
  | nil => intro _ s hs; simp [visitStmts, hs]
  | cons t rest =>
    intro h s hs
    simp only [funDefsOutsideLoopsList, Bool.and_eq_true] at h
    obtain ⟨ht, hrest⟩ := h
    simp only [visitStmts]
    obtain ⟨t1, t2⟩ := outsideLoops_preserves t ht s hs
    obtain ⟨r1, r2⟩ := outsideLoopsList_preserves rest hrest (visitStmt s t) t1
    rw [r1, r2, t2]
    exact ⟨rfl, rfl⟩

end

end AlgorithmComplexityAnalyzer

/-- C2 (amended): the complexity analyzer's loop-nesting counter is
restored to its module-level value 0 and is never assigned a negative
value, provided no function definition occurs nested inside a loop body;
the counterexample theorem shows the proviso is necessary, because
`visit_FunctionDef` resets the counter to 0 without restoring it. -/
theorem aca_counter_discipline (m : PyModule)
    (h : funDefsOutsideLoopsList m = true) :
    (AlgorithmComplexityAnalyzer.run m).nestedLoops = 0 ∧
    (AlgorithmComplexityAnalyzer.run m).wentNeg = false := by
  simpa [AlgorithmComplexityAnalyzer.run] using
    AlgorithmComplexityAnalyzer.outsideLoopsList_preserves m h
      ⟨none, 0, 0, false, []⟩ rfl

/-- Witness for `aca_counter_discipline`: a function whose body is a
double loop nest. -/
theorem aca_counter_discipline_witness :
    (AlgorithmComplexityAnalyzer.run
      [.functionDef (str "f")
        [.forStmt (.name (str "i") 2) (.name (str "xs") 2)
          [.whileStmt (.name (str "c") 3) [.passStmt 4] [] 3] [] 2] 1]).nestedLoops = 0 ∧
    (AlgorithmComplexityAnalyzer.run
      [.functionDef (str "f")
        [.forStmt (.name (str "i") 2) (.name (str "xs") 2)
          [.whileStmt (.name (str "c") 3) [.passStmt 4] [] 3] [] 2] 1]).wentNeg = false :=
  aca_counter_discipline _ (by decide)

/-- C2 counterexample: for a module consisting of one `for` loop whose
body is a function definition, the analyzer finishes with the nesting
counter at `-1` — the counter is assigned a negative value and is not
restored to its pre-traversal value 0, because `visit_FunctionDef` resets
it to 0 inside the loop and `visit_For` then decrements it. -/
theorem aca_counter_negative_counterexample :
    (AlgorithmComplexityAnalyzer.run
      [.forStmt (.name (str "i") 1) (.name (str "xs") 1)
        [.functionDef (str "f") [.passStmt 3] 2] [] 1]).nestedLoops = -1 ∧
    (AlgorithmComplexityAnalyzer.run
      [.forStmt (.name (str "i") 1) (.name (str "xs") 1)
        [.functionDef (str "f") [.passStmt 3] 2] [] 1]).wentNeg = true := by
  exact ⟨by decide, by decide⟩

/-- The deep-nesting issues the analyzer emits along a uniform loop
chain whose outermost loop is entered at depth `d`: a loop at depth at
least 3 yields one issue, `high` for a `for` loop at depth at least 4 and
`medium` otherwise (in particular always `medium` for `while` loops). -/
def deepNestExpected : Int → List (Bool × Nat) → List PerformanceIssue
  | _, [] => []
  | d, (isFor, ln) :: rest =>
    (if d ≥ 3 then
      [⟨if isFor then (if d ≥ 4 then Severity.high else .medium) else .medium,
        str "Deeply Nested Loops", ln⟩]
    else []) ++ deepNestExpected (d + 1) rest

namespace AlgorithmComplexityAnalyzer

theorem enterFor_issues (s : ACAState) (ln : Nat) :
    (enterFor s ln).issues = s.issues ++
      (if s.nestedLoops + 1 ≥ 3 then
        [⟨if s.nestedLoops + 1 ≥ 4 then Severity.high else .medium,
          str "Deeply Nested Loops", ln⟩]
      else []) := by
  unfold enterFor ACAState.setNested
  dsimp only
  split <;> simp

theorem enterWhile_issues (s : ACAState) (ln : Nat) :
    (enterWhile s ln).issues = s.issues ++
      (if s.nestedLoops + 1 ≥ 3 then
        [⟨Severity.medium, str "Deeply Nested Loops", ln⟩]
      else []) := by
  unfold enterWhile ACAState.setNested
  dsimp only
  split <;> simp

theorem exitLoop_issues (s : ACAState) : (exitLoop s).issues = s.issues := by
  unfold exitLoop ACAState.setNested
  simp

/-- Issues emitted by the analyzer over a uniform loop chain ending in
`pass`, from any state with a non-negative counter. -/
theorem visit_nestedLoopChain_issues (ln0 : Nat) :
    ∀ (cs : List (Bool × Nat)) (s : ACAState), 0 ≤ s.nestedLoops →
      (visitStmt s (nestedLoopChain cs (.passStmt ln0))).issues =
        s.issues ++ deepNestExpected (s.nestedLoops + 1) cs ∧
      (visitStmt s (nestedLoopChain cs (.passStmt ln0))).nestedLoops =
        s.nestedLoops := by
  intro cs
  induction cs with
  | nil => intro s hd; simp [nestedLoopChain, visitStmt, deepNestExpected]
  | cons hd rest ih =>
    intro s hd0
    obtain ⟨b, l1⟩ := hd
    have hone : ∀ s1 : ACAState,
        visitStmts s1 [nestedLoopChain rest (.passStmt ln0)] =
          visitStmt s1 (nestedLoopChain rest (.passStmt ln0)) := by
      intro s1; simp [visitStmts]
    cases b
    · -- while
      simp only [nestedLoopChain, visitStmt, hone, visitStmts]
      obtain ⟨e1, e2⟩ := enterWhile_proj s l1
      have hd1 : 0 ≤ (enterWhile s l1).nestedLoops := by rw [e1]; omega
      obtain ⟨i1, i2⟩ := ih (enterWhile s l1) hd1
      have hx := exitLoop_issues
        (visitStmt (enterWhile s l1) (nestedLoopChain rest (.passStmt ln0)))
      obtain ⟨x1, _⟩ := exitLoop_proj
        (visitStmt (enterWhile s l1) (nestedLoopChain rest (.passStmt ln0)))
      rw [hx, i1, enterWhile_issues, x1, i2, e1]
      constructor
      · rw [List.append_assoc]
        congr 1
      · omega
    · -- for
      simp only [nestedLoopChain, visitStmt, hone, visitStmts]
      obtain ⟨e1, e2⟩ := enterFor_proj s l1
      have hd1 : 0 ≤ (enterFor s l1).nestedLoops := by rw [e1]; omega
      obtain ⟨i1, i2⟩ := ih (enterFor s l1) hd1
      have hx := exitLoop_issues
        (visitStmt (enterFor s l1) (nestedLoopChain rest (.passStmt ln0)))
      obtain ⟨x1, _⟩ := exitLoop_proj
        (visitStmt (enterFor s l1) (nestedLoopChain rest (.passStmt ln0)))
      rw [hx, i1, enterFor_issues, x1, i2, e1]
      constructor
      · rw [List.append_assoc]
        congr 1
      · omega

end AlgorithmComplexityAnalyzer

/-- C5 (amended): over a uniform chain of nested loops, each loop entered
at depth `d ≥ 3` yields one deep-nesting finding at the loop's line; a
`for` loop's finding is `medium` at depth 3 and `high` from depth 4 on,
while a `while` loop's finding is always `medium` (the high escalation is
implemented only in `visit_For`, not in `visit_While`). -/
theorem aca_deep_nesting_severities (cs : List (Bool × Nat)) (ln0 : Nat) :
    (AlgorithmComplexityAnalyzer.run [nestedLoopChain cs (.passStmt ln0)]).issues =
      deepNestExpected 1 cs := by
  have h := AlgorithmComplexityAnalyzer.visit_nestedLoopChain_issues ln0 cs
    ⟨none, 0, 0, false, []⟩ le_rfl
  simpa [AlgorithmComplexityAnalyzer.run,
    AlgorithmComplexityAnalyzer.visitStmts] using h.1

/-- C5 counterexample: four uniformly nested `while` loops.  The loop at
depth 4 is reported `medium`, not `high` as the claim requires for any
loop construct at depth at least 4; no `high` finding is emitted at all. -/
theorem aca_while_depth4_not_high_counterexample :
    (AlgorithmComplexityAnalyzer.run
      [nestedLoopChain [(false, 1), (false, 2), (false, 3), (false, 4)]
        (.passStmt 5)]).issues =
      [⟨Severity.medium, str "Deeply Nested Loops", 3⟩,
       ⟨Severity.medium, str "Deeply Nested Loops", 4⟩] ∧
    ((AlgorithmComplexityAnalyzer.run
      [nestedLoopChain [(false, 1), (false, 2), (false, 3), (false, 4)]
        (.passStmt 5)]).issues.countP
      (fun i => i.severity = Severity.high)) = 0 := by
  exact ⟨by decide, by decide⟩

/-- The rule names of the text-based (regex/line) performance checks. -/
def textRuleNames : List PStr :=
  [str "Resource Management", str "Unbounded Collection",
   str "Potential Circular Reference",
   str "Blocking Operation in Event Handler", str "Potentially Long Loop"]

namespace MemoryLeakDetector

theorem fileHandlesGo_rule :
    ∀ (ls : List PStr) (i : Nat) (p : Option PStr) (x : PerformanceIssue),
      x ∈ fileHandlesGo i p ls → x.rule = str "Resource Management" := by
  intro ls
  induction ls with
  | nil => intro i p x h; simp [fileHandlesGo] at h
  | cons l rest ih =>
    intro i p x h
    simp only [fileHandlesGo, List.mem_append] at h
    rcases h with h | h
    · split at h <;> simp_all
    · exact ih _ _ x h

theorem checkUnbounded_rule (ls : List PStr) (x : PerformanceIssue)
    (h : x ∈ checkUnbounded ls) : x.rule = str "Unbounded Collection" := by
  simp only [checkUnbounded, List.mem_filterMap] at h
  obtain ⟨i, _, hf⟩ := h
  split at hf
  · cases hf; rfl
  · cases hf

theorem circularGo_rule :
    ∀ (fuel i : Nat) (ls : List PStr) (x : PerformanceIssue),
      x ∈ circularGo ls fuel i → x.rule = str "Potential Circular Reference" := by
  intro fuel
  induction fuel with
  | zero => intro i ls x h; simp [circularGo] at h
  | succ n ih =>
    intro i ls x h
    simp only [circularGo] at h
    split at h
    · simp_all
    · exact ih _ _ x h

theorem memory_analyze_rules (content : PStr) (x : PerformanceIssue)
    (h : x ∈ analyze content) :
    x.rule = str "Resource Management" ∨ x.rule = str "Unbounded Collection" ∨
      x.rule = str "Potential Circular Reference" := by
  simp only [analyze, checkFileHandles, checkCircular, List.mem_append] at h
  rcases h with (h | h) | h
  · exact Or.inl (fileHandlesGo_rule _ _ _ _ h)
  · exact Or.inr (Or.inl (checkUnbounded_rule _ _ h))
  · exact Or.inr (Or.inr (circularGo_rule _ _ _ _ h))

end MemoryLeakDetector

namespace LatencyValidator

theorem checkBlocking_rule (ls : List PStr) (x : PerformanceIssue)
    (h : x ∈ checkBlocking ls) :
    x.rule = str "Blocking Operation in Event Handler" := by
  simp only [checkBlocking, List.mem_flatMap] at h
  obtain ⟨i, _, hx⟩ := h
  split at hx
  · simp only [List.mem_filterMap] at hx
    obtain ⟨g, _, hg⟩ := hx
    split at hg
    · cases hg; rfl
    · cases hg
  · cases hx

theorem checkLongRunning_rule (ls : List PStr) (x : PerformanceIssue)
    (h : x ∈ checkLongRunning ls) : x.rule = str "Potentially Long Loop" := by
  simp only [checkLongRunning, List.mem_filterMap] at h
  obtain ⟨i, _, hf⟩ := h
  split at hf
  · cases hf; rfl
  · cases hf

theorem latency_analyze_rules (content : PStr) (x : PerformanceIssue)
    (h : x ∈ analyze content) :
    x.rule = str "Blocking Operation in Event Handler" ∨
      x.rule = str "Potentially Long Loop" := by
  simp only [analyze, List.mem_append] at h
  rcases h with h | h
  · exact Or.inl (checkBlocking_rule _ _ h)
  · exact Or.inr (checkLongRunning_rule _ _ h)

end LatencyValidator

/-- C3 (amended): on a file whose content fails to parse,
`PerformanceValidator.validate` is total (it raises nothing), returns
exactly the findings of the text-based checks (resource leak, unbounded
collection, circular reference, blocking-in-handler, long loop), and
records no parse-error or scan-error finding at all: every returned
finding carries one of the five text-rule names.  The `except
SyntaxError: pass` clause silently discards the parse failure. -/
theorem performance_validate_parse_failure (content : PStr) :
    PerformanceValidator.validate none content =
      MemoryLeakDetector.analyze content ++ LatencyValidator.analyze content ∧
    ∀ x ∈ PerformanceValidator.validate none content,
      x.rule ∈ textRuleNames := by
  constructor
  · rfl
  · intro x hx
    simp only [PerformanceValidator.validate, List.nil_append,
      List.mem_append] at hx
    simp only [textRuleNames, List.mem_cons, List.mem_singleton]
    rcases hx with h | h
    · rcases MemoryLeakDetector.memory_analyze_rules content x h with h1 | h1 | h1 <;>
        simp [h1]
    · rcases LatencyValidator.latency_analyze_rules content x h with h1 | h1 <;>
        simp [h1]

/-- Witness for `performance_validate_parse_failure`: the unparseable
two-line file `def f(:` / `g = open('x.txt')` produces exactly the
resource-management finding, whose rule is among the text rules. -/
theorem performance_validate_parse_failure_witness :
    (PerformanceValidator.validate none
        (str "def f(:\ng = open(" ++ [sqCh] ++ str "x.txt" ++ [sqCh] ++ str ")") =
      MemoryLeakDetector.analyze
          (str "def f(:\ng = open(" ++ [sqCh] ++ str "x.txt" ++ [sqCh] ++ str ")") ++
        LatencyValidator.analyze
          (str "def f(:\ng = open(" ++ [sqCh] ++ str "x.txt" ++ [sqCh] ++ str ")")) ∧
    (⟨Severity.high, str "Resource Management", 2⟩ : PerformanceIssue).rule ∈
      textRuleNames :=
  ⟨(performance_validate_parse_failure _).1,
   (performance_validate_parse_failure
      (str "def f(:\ng = open(" ++ [sqCh] ++ str "x.txt" ++ [sqCh] ++ str ")")).2
      ⟨Severity.high, str "Resource Management", 2⟩ (by decide)⟩

/-- C3 counterexample: for the unparseable file `def f(:` /
`g = open('x.txt')`, `validate` returns exactly one finding — the
text-based resource-management finding at line 2 — and no parse-error or
scan-error finding accompanies it, contradicting the claimed `exactly one
parse-error Finding` in addition to the text findings. -/
theorem performance_validate_no_parse_error_counterexample :
    PerformanceValidator.validate none
        (str "def f(:\ng = open(" ++ [sqCh] ++ str "x.txt" ++ [sqCh] ++ str ")") =
      [⟨Severity.high, str "Resource Management", 2⟩] := by decide

/-- C4 counterexample: on the exact line of the claim,
`validate_api_key_exposure` emits no issue at all.  The identifier
`API_KEY` matches none of the named key patterns (they require the
specific names `COINBASE_API_KEY`, `BINANCE_API_KEY`, ..., `SUPABASE_*_KEY`,
`aws_access_key_id`), and the literal `sk-abcdef1234567890abcdef1234567890`
does not match the generic pattern either: it is 35 characters long and
contains a hyphen, while the generic pattern requires a run of at least
forty characters that are all alphanumeric. -/
theorem api_key_exposure_counterexample :
    SecurityValidator.validateApiKeyExposure (str "config.py")
      (str "API_KEY = \"sk-abcdef1234567890abcdef1234567890\"") = [] := by
  decide

/-- C4 (amended): for a key assignment using one of the recognized key
names, here `COINBASE_API_KEY`, the rule emits exactly one critical
`api_key_exposure` issue at that line; rewriting the same line to an
`os.getenv` lookup yields zero issues. -/
theorem api_key_exposure_recognized_name :
    SecurityValidator.validateApiKeyExposure (str "config.py")
      (str "COINBASE_API_KEY = \"sk-abcdef1234567890abcdef1234567890\"") =
      [⟨str "critical", str "api_key_exposure", 1⟩] ∧
    SecurityValidator.validateApiKeyExposure (str "config.py")
      (str "COINBASE_API_KEY = os.getenv(" ++ [sqCh] ++
        str "COINBASE_API_KEY" ++ [sqCh] ++ str ")") = [] := by
  exact ⟨by decide, by decide⟩

namespace TaxValidator

/-- Count of `ltcg_holding_period_boundary` issues reported at a given
line number. -/
def boundaryAt (issues : List TaxIssue) (n : Nat) : Nat :=
  issues.countP
    (fun x => decide (x.rule = str "ltcg_holding_period_boundary" ∧
      x.lineNumber = n))

theorem ltcgGo_line_lb :
    ∀ (ls : List PStr) (k : Nat) (x : TaxIssue),
      x ∈ ltcgGo k ls → k ≤ x.lineNumber := by
  intro ls
  induction ls with
  | nil => intro k x h; simp [ltcgGo] at h
  | cons l rest ih =>
    intro k x h
    simp only [ltcgGo, ltcgLineIssues, List.mem_append] at h
    rcases h with (h | h) | h
    · split at h <;> simp_all
    · split at h <;> simp_all
    · have := ih (k + 1) x h
      omega

theorem ltcgGo_boundaryAt :
    ∀ (ls : List PStr) (k j : Nat), j < ls.length →
      boundaryAt (ltcgGo k ls) (k + j) =
        if holdingAnchor (ls.getD j []) && boundaryFlag (ls.getD j []) then 1
        else 0 := by
  intro ls
  induction ls with
  | nil => intro k j h; simp at h
  | cons l rest ih =>
    intro k j hj
    simp only [ltcgGo, boundaryAt, List.countP_append]
    cases j with
    | zero =>
      have hrest : (ltcgGo (k + 1) rest).countP
          (fun x => decide (x.rule = str "ltcg_holding_period_boundary" ∧
            x.lineNumber = k + 0)) = 0 := by
        rw [List.countP_eq_zero]
        intro x hx
        have := ltcgGo_line_lb rest (k + 1) x hx
        simp only [decide_eq_true_eq]
        rintro ⟨-, h2⟩
        omega
      rw [hrest]
      simp only [ltcgLineIssues, List.countP_append, List.getD_cons_zero]
      have htax : ∀ b : Bool,
          ((if b = true then
              [(⟨str "high", str "ltcg_tax_rate_incorrect", k⟩ : TaxIssue)]
            else []).countP
            (fun x => decide (x.rule = str "ltcg_holding_period_boundary" ∧
              x.lineNumber = k + 0))) = 0 := by
        intro b; cases b <;> simp [str]
      split
      · rename_i hcond
        simp only [List.countP_cons, List.countP_nil]
        rw [htax]
        simp
      · rename_i hcond
        simp only [List.countP_nil]
        rw [htax]
    | succ j2 =>
      have hline : (ltcgLineIssues l k).countP
          (fun x => decide (x.rule = str "ltcg_holding_period_boundary" ∧
            x.lineNumber = k + (j2 + 1))) = 0 := by
        rw [List.countP_eq_zero]
        intro x hx
        simp only [ltcgLineIssues, List.mem_append] at hx
        simp only [decide_eq_true_eq]
        rintro ⟨-, h2⟩
        rcases hx with hx | hx <;> (split at hx <;> simp_all)
      rw [hline]
      have := ih (k + 1) j2 (by simpa using hj)
      simp only [boundaryAt] at this
      rw [List.getD_cons_succ]
      rw [show k + (j2 + 1) = k + 1 + j2 by omega]
      simpa using this

end TaxValidator

/-- C6: for any file and any line matching the holding-period anchor
(contains `holding` together with `365` or `year`),
`validate_ltcg_classification` emits exactly one high-severity
`ltcg_holding_period_boundary` issue at that line when the line contains
the non-strict comparison `>= 365`, and emits none at that line when it
contains the strict comparison `> 365` and not `>= 365`. -/
theorem ltcg_boundary_comparison (content : PStr) (i : Nat)
    (hi : i < (splitLines content).length)
    (hanchor : TaxValidator.holdingAnchor ((splitLines content).getD i []) = true) :
    (containsSub (str ">= 365") ((splitLines content).getD i []) = true →
      TaxValidator.boundaryAt
        (TaxValidator.validateLtcgClassification content) (i + 1) = 1) ∧
    (containsSub (str "> 365") ((splitLines content).getD i []) = true →
      containsSub (str ">= 365") ((splitLines content).getD i []) = false →
      TaxValidator.boundaryAt
        (TaxValidator.validateLtcgClassification content) (i + 1) = 0) := by
  have key := TaxValidator.ltcgGo_boundaryAt (splitLines content) 1 i hi
  rw [show 1 + i = i + 1 by omega] at key
  unfold TaxValidator.validateLtcgClassification
  constructor
  · intro hge
    rw [key]
    have : TaxValidator.boundaryFlag ((splitLines content).getD i []) = true := by
      unfold TaxValidator.boundaryFlag
      rw [hge]
      simp
    rw [hanchor, this]
    simp
  · intro hgt hnotge
    rw [key]
    have : TaxValidator.boundaryFlag ((splitLines content).getD i []) = false := by
      unfold TaxValidator.boundaryFlag
      rw [hgt, hnotge]
      simp
    rw [this]
    simp

/-- Witness for `ltcg_boundary_comparison`: the single-line file
`if holding_days >= 365:` yields one boundary issue at line 1, and the
single-line file `if holding_days > 365:` yields none. -/
theorem ltcg_boundary_comparison_witness :
    TaxValidator.boundaryAt
      (TaxValidator.validateLtcgClassification
        (str "if holding_days >= 365:")) 1 = 1 ∧
    TaxValidator.boundaryAt
      (TaxValidator.validateLtcgClassification
        (str "if holding_days > 365:")) 1 = 0 :=
  ⟨(ltcg_boundary_comparison (str "if holding_days >= 365:") 0 (by decide)
      (by decide)).1 (by decide),
   (ltcg_boundary_comparison (str "if holding_days > 365:") 0 (by decide)
      (by decide)).2 (by decide) (by decide)⟩

/-- `ls.getD i []` looks inside the suffix `ls.drop i`. -/
theorem getD_eq_drop_getD :
    ∀ (ls : List PStr) (i : Nat), ls.getD i [] = (ls.drop i).getD 0 [] := by
  intro ls
  induction ls with
  | nil => intro i; cases i <;> simp
  | cons a rest ih => intro i; cases i with
    | zero => simp
    | succ n => simp [ih n]

namespace KellyCriterionValidator

/-- The 0-based line `j` is a Kelly anchor line whose context window
misses at least one of the three term families. -/
def incompleteAt (lines : List PStr) (j : Nat) : Bool :=
  kellyLine (lines.getD j []) && !contextComplete (kellyContext lines j)

/-- Count of `Kelly Criterion Formula` issues. -/
def formulaCount (issues : List TradingIssue) : Nat :=
  issues.countP (fun x => decide (x.rule = str "Kelly Criterion Formula"))

theorem formulaGo_count_one (lines : List PStr) :
    ∀ (suf : List PStr) (i : Nat) (found : Bool), suf = lines.drop i →
      (∃ j, j < suf.length ∧ incompleteAt lines (i + j) = true) →
      formulaCount (formulaGo lines suf i found) = 1 := by
  intro suf
  induction suf with
  | nil =>
    intro i found _ hex
    obtain ⟨j, hj, _⟩ := hex
    simp at hj
  | cons l rest ih =>
    intro i found hsuf hex
    have hl : lines.getD i [] = l := by
      rw [getD_eq_drop_getD, ← hsuf]; rfl
    have hrest : rest = lines.drop (i + 1) := by
      have : lines.drop (i + 1) = (lines.drop i).drop 1 := by
        rw [List.drop_drop]
      rw [this, ← hsuf]
      rfl
    simp only [formulaGo]
    by_cases hk : kellyLine l = true
    · rw [if_pos hk]
      by_cases hc : contextComplete (kellyContext lines i) = true
      · rw [hc]
        simp only [Bool.not_true, Bool.false_eq_true, if_false, if_neg]
        apply ih (i + 1) true hrest
        obtain ⟨j, hj, hinc⟩ := hex
        cases j with
        | zero =>
          exfalso
          simp only [incompleteAt, Nat.add_zero, hl, hk, hc] at hinc
          simp at hinc
        | succ j2 =>
          refine ⟨j2, by simpa using hj, ?_⟩
          rw [show i + 1 + j2 = i + (j2 + 1) by omega]
          exact hinc
      · have hc2 : contextComplete (kellyContext lines i) = false := by
          simpa using hc
        rw [hc2]
        simp [formulaCount, str]
    · have hk2 : kellyLine l = false := by simpa using hk
      rw [hk2]
      simp only [Bool.false_eq_true, if_false]
      apply ih (i + 1) found hrest
      obtain ⟨j, hj, hinc⟩ := hex
      cases j with
      | zero =>
        exfalso
        simp only [incompleteAt, Nat.add_zero, hl, hk2] at hinc
        simp at hinc
      | succ j2 =>
        refine ⟨j2, by simpa using hj, ?_⟩
        rw [show i + 1 + j2 = i + (j2 + 1) by omega]
        exact hinc

theorem formulaGo_count_zero (lines : List PStr) :
    ∀ (suf : List PStr) (i : Nat) (found : Bool), suf = lines.drop i →
      (∀ j, j < suf.length → incompleteAt lines (i + j) = false) →
      formulaCount (formulaGo lines suf i found) = 0 := by
  intro suf
  induction suf with
  | nil =>
    intro i found _ _
    cases found <;> simp [formulaGo, formulaCount, str]
  | cons l rest ih =>
    intro i found hsuf hall
    have hl : lines.getD i [] = l := by
      rw [getD_eq_drop_getD, ← hsuf]; rfl
    have hrest : rest = lines.drop (i + 1) := by
      have : lines.drop (i + 1) = (lines.drop i).drop 1 := by
        rw [List.drop_drop]
      rw [this, ← hsuf]
      rfl
    have hall2 : ∀ j, j < rest.length → incompleteAt lines (i + 1 + j) = false := by
      intro j hj
      rw [show i + 1 + j = i + (j + 1) by omega]
      exact hall (j + 1) (by simpa using Nat.succ_lt_succ hj)
    have h0 := hall 0 (by simp)
    simp only [incompleteAt, Nat.add_zero, hl] at h0
    simp only [formulaGo]
    by_cases hk : kellyLine l = true
    · rw [if_pos hk]
      rw [hk] at h0
      have hc : contextComplete (kellyContext lines i) = true := by
        simpa using h0
      rw [hc]
      simp only [Bool.not_true, Bool.false_eq_true, if_false, if_neg]
      exact ih (i + 1) true hrest hall2
    · have hk2 : kellyLine l = false := by simpa using hk
      rw [hk2]
      simp only [Bool.false_eq_true, if_false]
      exact ih (i + 1) found hrest hall2

end KellyCriterionValidator

/-- C7: when some Kelly anchor line (matching `kelly|fraction|
position_size`, ignoring case) has a context window that references a
win-probability term and a payoff-ratio term but no loss-probability
term, `_validate_kelly_formula` emits exactly one critical
`Kelly Criterion Formula` issue; when every anchor line's context window
references all three term families, it emits none. -/
theorem kelly_formula_completeness (lines : List PStr) :
    ((∃ j, j < lines.length ∧
        KellyCriterionValidator.kellyLine (lines.getD j []) = true ∧
        KellyCriterionValidator.hasWinProb
          (KellyCriterionValidator.kellyContext lines j) = true ∧
        KellyCriterionValidator.hasPayoffRatio
          (KellyCriterionValidator.kellyContext lines j) = true ∧
        KellyCriterionValidator.hasLoseProb
          (KellyCriterionValidator.kellyContext lines j) = false) →
      KellyCriterionValidator.formulaCount
        (KellyCriterionValidator.validateKellyFormula lines) = 1) ∧
    ((∀ j, j < lines.length →
        KellyCriterionValidator.kellyLine (lines.getD j []) = true →
        KellyCriterionValidator.contextComplete
          (KellyCriterionValidator.kellyContext lines j) = true) →
      KellyCriterionValidator.formulaCount
        (KellyCriterionValidator.validateKellyFormula lines) = 0) := by
  constructor
  · intro hex
    apply KellyCriterionValidator.formulaGo_count_one lines lines 0 false (by simp)
    obtain ⟨j, hj, hk, hw, hp, hlo⟩ := hex
    refine ⟨j, hj, ?_⟩
    simp only [KellyCriterionValidator.incompleteAt, Nat.zero_add, hk,
      KellyCriterionValidator.contextComplete, hw, hp, hlo]
    rfl
  · intro hall
    apply KellyCriterionValidator.formulaGo_count_zero lines lines 0 false (by simp)
    intro j hj
    simp only [KellyCriterionValidator.incompleteAt, Nat.zero_add]
    by_cases hk : KellyCriterionValidator.kellyLine (lines.getD j []) = true
    · rw [hk, hall j hj hk]
      rfl
    · have : KellyCriterionValidator.kellyLine (lines.getD j []) = false := by
        simpa using hk
      rw [this]
      rfl

/-- Witness for `kelly_formula_completeness`: the single line
`position_size = win_probability * payoff_ratio` (no loss-probability
term in context) yields exactly one critical formula issue, while
`kelly = (win_prob * b - q) / b` (all three families present) yields
none. -/
theorem kelly_formula_completeness_witness :
    KellyCriterionValidator.formulaCount
      (KellyCriterionValidator.validateKellyFormula
        [str "position_size = win_probability * payoff_ratio"]) = 1 ∧
    KellyCriterionValidator.formulaCount
      (KellyCriterionValidator.validateKellyFormula
        [str "kelly = (win_prob * b - q) / b"]) = 0 :=
  ⟨(kelly_formula_completeness
      [str "position_size = win_probability * payoff_ratio"]).1
      ⟨0, by decide, by decide, by decide, by decide, by decide⟩,
   (kelly_formula_completeness [str "kelly = (win_prob * b - q) / b"]).2
      (by decide)⟩

namespace MemoryLeakDetector

/-- Count of `Resource Management` issues reported at a given line. -/
def resourceAt (issues : List PerformanceIssue) (n : Nat) : Nat :=
  issues.countP
    (fun x => decide (x.rule = str "Resource Management" ∧ x.lineNumber = n))

theorem fileHandlesGo_line_lb :
    ∀ (ls : List PStr) (i : Nat) (p : Option PStr) (x : PerformanceIssue),
      x ∈ fileHandlesGo i p ls → i + 1 ≤ x.lineNumber := by
  intro ls
  induction ls with
  | nil => intro i p x h; simp [fileHandlesGo] at h
  | cons l rest ih =>
    intro i p x h
    simp only [fileHandlesGo, List.mem_append] at h
    rcases h with h | h
    · split at h <;> simp_all
    · have := ih (i + 1) (some l) x h
      omega

theorem fileHandlesGo_resourceAt :
    ∀ (ls : List PStr) (i : Nat) (p : Option PStr) (j : Nat), j < ls.length →
      resourceAt (fileHandlesGo i p ls) (i + j + 1) =
        if fileHandleCond (ls.getD j [])
            (if j = 0 then p else some (ls.getD (j - 1) [])) then 1
        else 0 := by
  intro ls
  induction ls with
  | nil => intro i p j h; simp at h
  | cons l rest ih =>
    intro i p j hj
    simp only [fileHandlesGo, resourceAt, List.countP_append]
    cases j with
    | zero =>
      have hrest : (fileHandlesGo (i + 1) (some l) rest).countP
          (fun x => decide (x.rule = str "Resource Management" ∧
            x.lineNumber = i + 0 + 1)) = 0 := by
        rw [List.countP_eq_zero]
        intro x hx
        have := fileHandlesGo_line_lb rest (i + 1) (some l) x hx
        simp only [decide_eq_true_eq]
        rintro ⟨-, h2⟩
        omega
      rw [hrest]
      simp only [List.getD_cons_zero]
      split <;> simp_all
    | succ j2 =>
      have hline : ((if fileHandleCond l p then
          [(⟨Severity.high, str "Resource Management", i + 1⟩ : PerformanceIssue)]
        else []).countP
          (fun x => decide (x.rule = str "Resource Management" ∧
            x.lineNumber = i + (j2 + 1) + 1))) = 0 := by
        split <;> simp_all
      rw [hline]
      have := ih (i + 1) (some l) j2 (by simpa using hj)
      simp only [resourceAt] at this
      rw [show i + (j2 + 1) + 1 = i + 1 + j2 + 1 by omega]
      rw [Nat.zero_add, this]
      congr 1
      cases j2 with
      | zero => simp
      | succ j3 => simp

end MemoryLeakDetector

/-- C8 (amended): a line with an `open(` call and no `with` is flagged by
`MemoryLeakDetector._check_file_handles` exactly when it is NOT the first
line and the immediately preceding line has no `with`; an `open(` call on
the first line of the file is never flagged, because the guard `i > 0`
fails there.  Likewise `PerformanceAnalyzer._check_memory_patterns` in
`deep_scan.py` never flags the first line (its conditional expression is
`False` for `i == 1`, and the `lines[i-1]` it consults is the current
line, not the preceding one). -/
theorem resource_leak_previous_line (content : PStr) (i : Nat)
    (hi : i < (splitLines content).length) :
    (MemoryLeakDetector.resourceAt
        (MemoryLeakDetector.checkFileHandles (splitLines content)) (i + 1) =
      if MemoryLeakDetector.fileHandleCond ((splitLines content).getD i [])
          (if i = 0 then none else some ((splitLines content).getD (i - 1) []))
        then 1 else 0) ∧
    (i = 0 →
      MemoryLeakDetector.resourceAt
        (MemoryLeakDetector.checkFileHandles (splitLines content)) (i + 1) = 0) ∧
    (∀ x ∈ DeepScanner.checkMemoryPatterns (splitLines content),
      2 ≤ x.lineNumber) := by
  have key := MemoryLeakDetector.fileHandlesGo_resourceAt
    (splitLines content) 0 none i hi
  rw [Nat.zero_add] at key
  refine ⟨key, ?_, ?_⟩
  · intro h0
    subst h0
    unfold MemoryLeakDetector.checkFileHandles
    rw [key]
    simp [MemoryLeakDetector.fileHandleCond]
  · intro x hx
    simp only [DeepScanner.checkMemoryPatterns, List.mem_filterMap] at hx
    obtain ⟨i0, _, hf⟩ := hx
    split at hf
    · rename_i hcond
      cases hf
      simp only [Bool.and_eq_true, decide_eq_true_eq] at hcond
      show 2 ≤ i0 + 1
      omega
    · cases hf

/-- Witness for `resource_leak_previous_line`: in the two-line file
`x = 1` / `f = open('x.txt')` the second line is flagged exactly once. -/
theorem resource_leak_previous_line_witness :
    MemoryLeakDetector.resourceAt
      (MemoryLeakDetector.checkFileHandles
        (splitLines (str "x = 1\nf = open(" ++ [sqCh] ++ str "x.txt" ++ [sqCh] ++ str ")")))
      2 = 1 := by
  have h := (resource_leak_previous_line
    (str "x = 1\nf = open(" ++ [sqCh] ++ str "x.txt" ++ [sqCh] ++ str ")") 1
    (by decide)).1
  rw [h]
  decide

/-- C8 counterexample: an `open(` call on the first line of a file — a
line with no preceding line — is NOT flagged: both detectors return no
finding at all for the one-line file `f = open('x.txt')`, while the claim
requires a high-severity resource-management finding at line 1. -/
theorem resource_leak_first_line_counterexample :
    MemoryLeakDetector.checkFileHandles
      (splitLines (str "f = open(" ++ [sqCh] ++ str "x.txt" ++ [sqCh] ++ str ")")) = [] ∧
    DeepScanner.checkMemoryPatterns
      (splitLines (str "f = open(" ++ [sqCh] ++ str "x.txt" ++ [sqCh] ++ str ")")) = [] := by
  exact ⟨by decide, by decide⟩

namespace DeepScanner

/-- Risk score as the specification states it: `critical_count * 10 +
high_count * 5 + sum(impact_score)` (counts written with `countP`,
independently of the list-comprehension form the source uses). -/
def riskScoreSpec (issues : List ScanIssue) : Rat :=
  (issues.countP (fun i => decide (i.severity = str "critical")) : Rat) * 10 +
    (issues.countP (fun i => decide (i.severity = str "high")) : Rat) * 5 +
    (issues.map (fun i => i.impactScore)).sum

/-- Risk band as the specification states it: critical count above 5 is
`critical`, any critical is `high`, high count above 10 is `medium`,
otherwise `low`. -/
def riskBandSpec (issues : List ScanIssue) : PStr :=
  if 5 < issues.countP (fun i => decide (i.severity = str "critical")) then
    str "critical"
  else if 0 < issues.countP (fun i => decide (i.severity = str "critical")) then
    str "high"
  else if 10 < issues.countP (fun i => decide (i.severity = str "high")) then
    str "medium"
  else str "low"

end DeepScanner

/-- C9: for every finding collection, the statistics report's risk score
equals `critical_count * 10 + high_count * 5 + sum(impact_score)` and its
qualitative risk band follows the claimed cascade (critical count > 5 →
critical; any critical → high; high count > 10 → medium; else low). -/
theorem deep_scan_statistics (issues : List ScanIssue) :
    DeepScanner.riskScore issues = DeepScanner.riskScoreSpec issues ∧
    DeepScanner.riskBand issues = DeepScanner.riskBandSpec issues := by
  constructor <;>
    simp [DeepScanner.riskScore, DeepScanner.riskScoreSpec,
      DeepScanner.riskBand, DeepScanner.riskBandSpec,
      DeepScanner.criticalCount, DeepScanner.highCount,
      DeepScanner.totalImpact, List.countP_eq_length_filter]

namespace EventProcessingProfiler

theorem insertSorted_length (x : Rat) :
    ∀ l : List Rat, (insertSorted x l).length = l.length + 1 := by
  intro l
  induction l with
  | nil => rfl
  | cons y rest ih =>
    simp only [insertSorted]
    split
    · simp
    · simp [ih]

theorem sortLat_length (l : List Rat) : (sortLat l).length = l.length := by
  induction l with
  | nil => rfl
  | cons x rest ih =>
    show (insertSorted x (sortLat rest)).length = rest.length + 1
    rw [insertSorted_length, ih]

end EventProcessingProfiler

/-- C10: `get_percentiles` returns the empty map when no latencies have
been recorded for the event type, and for a non-empty latency list it is
total: each percentile index `int(n * 0.50)`, `int(n * 0.95)`,
`int(n * 0.99)` is strictly below the length of the sorted latency list,
so the p50/p95/p99 lookups are in bounds. -/
theorem get_percentiles_total (latencies : List Rat)
    (records : List (PStr × Rat)) (eventType : PStr) :
    EventProcessingProfiler.getPercentiles [] = none ∧
    ((∀ r ∈ records, r.1 ≠ eventType) →
      EventProcessingProfiler.getPercentilesFor records eventType = none) ∧
    (latencies ≠ [] →
      (EventProcessingProfiler.getPercentiles latencies).isSome = true ∧
      EventProcessingProfiler.pctIndex
          (EventProcessingProfiler.sortLat latencies).length 50 <
        (EventProcessingProfiler.sortLat latencies).length ∧
      EventProcessingProfiler.pctIndex
          (EventProcessingProfiler.sortLat latencies).length 95 <
        (EventProcessingProfiler.sortLat latencies).length ∧
      EventProcessingProfiler.pctIndex
          (EventProcessingProfiler.sortLat latencies).length 99 <
        (EventProcessingProfiler.sortLat latencies).length) := by
  refine ⟨rfl, ?_, ?_⟩
  · intro hnone
    have : EventProcessingProfiler.latenciesOf records eventType = [] := by
      simp only [EventProcessingProfiler.latenciesOf, List.map_eq_nil_iff,
        List.filter_eq_nil_iff]
      intro r hr
      simpa using hnone r hr
    simp only [EventProcessingProfiler.getPercentilesFor, this]
    rfl
  · intro hne
    have hlen : 0 < (EventProcessingProfiler.sortLat latencies).length := by
      rw [EventProcessingProfiler.sortLat_length]
      exact List.length_pos.mpr hne
    refine ⟨?_, ?_, ?_, ?_⟩
    · unfold EventProcessingProfiler.getPercentiles
      dsimp only
      split
      · rename_i heq
        rw [heq] at hlen
        simp at hlen
      · rfl
    all_goals
      unfold EventProcessingProfiler.pctIndex
      omega

/-- Witness for `get_percentiles_total`: a profiler that recorded one
latency for event type `a` reports the empty map for type `b`, and the
three-element latency list `[3, 1, 2]` yields a populated map with all
three percentile indices in bounds. -/
theorem get_percentiles_total_witness :
    EventProcessingProfiler.getPercentilesFor [(str "a", 5)] (str "b") = none ∧
    (EventProcessingProfiler.getPercentiles [(3 : Rat), 1, 2]).isSome = true :=
  ⟨(get_percentiles_total [] [(str "a", 5)] (str "b")).2.1 (by decide),
   ((get_percentiles_total [(3 : Rat), 1, 2] [] (str "b")).2.2 (by decide)).1⟩
